/-
Verification of the Snowflake ID generator (`src/Snowflake.ts`).

The TypeScript source works on JavaScript `BigInt`s (arbitrary-precision
integers), which we model as `ℤ`:
  * `x << k`  (BigInt, `k ≥ 0`)  is  `x * 2 ^ k`;
  * `x >> k`  (BigInt, `k ≥ 0`)  is  floor division, i.e. `Int`'s `/` (ediv);
  * `x % ...` via `BigInt.asUintN(k, x)`  is  `x % 2 ^ k` with `Int`'s
    nonnegative `%` (emod);
  * `x | y`   is  two's-complement bitwise or, i.e. `Int.lor`.
`Date.now()` is modelled by a stream `clock : ℕ → ℤ` giving the value of the
wall clock at the successive reads performed by one `genNewID` call (index 0 is
the read at the top of the call; the sleep-and-retry loop reads indices 1, 2,
…).  The unbounded `do … while` loop is modelled with explicit fuel, returning
`none` when the fuel is exhausted; the source has no failure path, so `none`
never corresponds to a thrown error.
-/
import Mathlib

set_option maxHeartbeats 1000000

/-- Models `const TOTAL_BITS = 64n`. -/
def TOTAL_BITS : ℤ := 64

/-- Models `const EPOCH_BITS = 42n`. -/
def EPOCH_BITS : ℤ := 42

/-- Models `const NODE_ID_BITS = 12n`. -/
def NODE_ID_BITS : ℤ := 12

/-- Models `const SEQUENCE_BITS = 10n`. -/
def SEQUENCE_BITS : ℤ := 10

/-- Models `const maxNodeID = (1n << NODE_ID_BITS) - 1n`. -/
def maxNodeID : ℤ := 1 <<< NODE_ID_BITS - 1

/-- Models `const maxSequence = (1n << SEQUENCE_BITS) - 1n`. -/
def maxSequence : ℤ := 1 <<< SEQUENCE_BITS - 1

/-- Models `private static defaultTimeOffset = new Date("01-01-2023").valueOf()`:
the millisecond value of 2023-01-01 (UTC reading of the date literal). -/
def defaultTimeOffset : ℤ := 1672531200000

/-- The mutable state of one `Snowflake` class instance.  `nodeID` and
`timeOffset` are the readonly configuration fields; `lastTimestamp` and
`lastSequence` are the private mutable fields. -/
structure Snowflake where
  nodeID : ℤ
  timeOffset : ℤ
  lastTimestamp : ℤ
  lastSequence : ℤ
deriving Repr, DecidableEq

/-- The private constructor.  `machineHash` stands for the external
`FNV.compress(12, FNV.update(machineIdent).value())` collaborator (the source
derives it from hostname and pid).  JS `!x` on a numeric argument is true when
the argument is missing or equals `0`, which is why both defaulting tests
compare against `0`. -/
def snowflakeConstructor (nodeID timeOffset : Option ℤ) (machineHash : ℤ) :
    Snowflake :=
  let nodeID : ℤ :=
    match nodeID with
    | none => machineHash
    | some v => if v = 0 then machineHash else v
  let timeOffset : ℤ :=
    match timeOffset with
    | none => defaultTimeOffset
    | some v => if v = 0 then defaultTimeOffset else v
  { nodeID := Int.land nodeID maxNodeID
    timeOffset := timeOffset
    lastTimestamp := 0
    lastSequence := -1 }

/-- Models `public static get(opts?: Partial<SnowflakeOpts>)`: the process-wide
singleton accessor.  The static field `Snowflake.instance` is threaded
explicitly as `inst`; the result is the returned generator together with the
new value of the static field. -/
def snowflakeGet (inst : Option Snowflake) (nodeID timeOffset : Option ℤ)
    (machineHash : ℤ) : Snowflake × Option Snowflake :=
  match inst with
  | some i => (i, some i)
  | none =>
    let i := snowflakeConstructor nodeID timeOffset machineHash
    (i, some i)

/-- The final compose expression of `genNewID`:
`(timestamp << TIMESTAMP_LEFT_SHIFT) | (BigInt(this.nodeID) << NODE_ID_SHIFT) | sequence`
with `TIMESTAMP_LEFT_SHIFT = NODE_ID_BITS + SEQUENCE_BITS` and
`NODE_ID_SHIFT = SEQUENCE_BITS`. -/
def composeID (timestamp nodeID sequence : ℤ) : ℤ :=
  Int.lor
    (Int.lor (timestamp <<< (NODE_ID_BITS + SEQUENCE_BITS))
      (nodeID <<< SEQUENCE_BITS))
    sequence

/-- The `do { await this.sleep(1); timestamp = BigInt(Date.now() - this.timeOffset); }
while (timestamp === this.lastTimestamp)` loop of `genNewID`, reading the
clock at indices `i, i+1, …` and stopping at the first read whose computed
timestamp differs from `lastTimestamp`.  `none` means the fuel ran out (the
source loop would simply still be running). -/
def awaitNextMillis (timeOffset lastTimestamp : ℤ) (clock : ℕ → ℤ) :
    ℕ → ℕ → Option ℤ
  | 0, _ => none
  | fuel + 1, i =>
    let timestamp := clock i - timeOffset
    if timestamp = lastTimestamp then
      awaitNextMillis timeOffset lastTimestamp clock fuel (i + 1)
    else
      some timestamp

/-- Models `async genNewID(): Promise<bigint>`.  Returns the updated instance state
together with the generated id.  The branch structure mirrors the source:
if the timestamp matches `lastTimestamp` the sequence is incremented, and on
sequence overflow the call waits (`awaitNextMillis`) for a fresh timestamp and
resets the sequence to 0; otherwise the sequence resets to 0.  The final pair
is stored into `lastTimestamp`/`lastSequence` and composed into the id. -/
def genNewID (s : Snowflake) (clock : ℕ → ℤ) (fuel : ℕ) :
    Option (Snowflake × ℤ) :=
  let timestamp := clock 0 - s.timeOffset
  let next : Option (ℤ × ℤ) :=
    if timestamp = s.lastTimestamp then
      if s.lastSequence + 1 > maxSequence then
        (awaitNextMillis s.timeOffset s.lastTimestamp clock fuel 1).map
          fun ts => (ts, 0)
      else
        some (timestamp, s.lastSequence + 1)
    else
      some (timestamp, 0)
  next.map fun p =>
    ({ s with lastTimestamp := p.1, lastSequence := p.2 },
      composeID p.1 s.nodeID p.2)

/-- Models `BigInt.asUintN(bits, x)`: the low `bits` bits of `x` read as an unsigned
integer, i.e. `x` modulo `2 ^ bits` (nonnegative remainder). -/
def asUintN (bits : ℤ) (x : ℤ) : ℤ := x % 2 ^ bits.toNat

/-- Models `public static getTimestampFromID(id, timeOffset?)`.  Note the JS
truthiness test `if (!timeOffset)`, which replaces a supplied `0` by
`defaultTimeOffset`. -/
def getTimestampFromID (id : ℤ) (timeOffset : Option ℤ) : ℤ :=
  let timeOffset : ℤ :=
    match timeOffset with
    | none => defaultTimeOffset
    | some v => if v = 0 then defaultTimeOffset else v
  let timestamp := asUintN EPOCH_BITS (id >>> (TOTAL_BITS - EPOCH_BITS))
  timestamp + timeOffset

/-- Models `public static getNodeIDFromID(id)`. -/
def getNodeIDFromID (id : ℤ) : ℤ :=
  asUintN NODE_ID_BITS ((id <<< EPOCH_BITS) >>> (EPOCH_BITS + SEQUENCE_BITS))

/-- Models `public static getSequenceFromID(id)`. -/
def getSequenceFromID (id : ℤ) : ℤ :=
  let BITS := TOTAL_BITS - SEQUENCE_BITS
  asUintN SEQUENCE_BITS ((id <<< BITS) >>> BITS)

/-- Runs a list of consecutive `genNewID` calls, each with its own clock
stream and fuel, collecting the generated ids. -/
def runCalls (s : Snowflake) :
    List ((ℕ → ℤ) × ℕ) → Option (Snowflake × List ℤ)
  | [] => some (s, [])
  | c :: rest =>
    match genNewID s c.1 c.2 with
    | none => none
    | some (s', id) =>
      match runCalls s' rest with
      | none => none
      | some (s'', ids) => some (s'', id :: ids)

/-- The arithmetic value `genNewID` would compose from the stored state. -/
def stateMark (s : Snowflake) : ℤ :=
  s.lastTimestamp * 2 ^ 22 + s.nodeID * 2 ^ 10 + s.lastSequence

example : maxNodeID = 4095 := by decide
example : maxSequence = 1023 := by decide
example : composeID 2 1 0 = 8389632 := by decide
example : getSequenceFromID 8389633 = 1 := by decide
example : getNodeIDFromID 8389633 = 1 := by decide
example : getTimestampFromID 8389633 (some 5) = 7 := by decide

/-! ### Arithmetic readings of the BigInt bit operations -/

theorem int_shiftLeft_coe (x : ℤ) (k : ℕ) : x <<< (k : ℤ) = x * 2 ^ k := by
  rw [Int.shiftLeft_eq_mul_pow]
  push_cast
  ring

theorem int_shiftRight_coe (x : ℤ) (k : ℕ) : x >>> (k : ℤ) = x / 2 ^ k := by
  have h : x >>> (k : ℤ) = x >>> k := by
    cases x <;> cases k <;> rfl
  rw [h, Int.shiftRight_eq_div_pow]
  push_cast
  ring_nf

theorem nat_testBit_two_pow_mul_add {k : ℕ} (a : ℕ) {b : ℕ} (hb : b < 2 ^ k)
    (i : ℕ) :
    Nat.testBit (2 ^ k * a + b) i =
      if i < k then Nat.testBit b i else Nat.testBit a (i - k) := by
  rcases Nat.lt_or_ge i k with h | h
  · rw [if_pos h, Nat.testBit_to_div_mod, Nat.testBit_to_div_mod]
    have h1 : 2 ^ k * a + b = 2 ^ i * (2 ^ (k - i) * a) + b := by
      rw [← mul_assoc, ← pow_add]
      congr 3
      omega
    rw [h1, Nat.mul_add_div (Nat.two_pow_pos i)]
    obtain ⟨c, hc⟩ : ∃ c, 2 ^ (k - i) * a = 2 * c := by
      refine ⟨2 ^ (k - i - 1) * a, ?_⟩
      rw [← mul_assoc, ← pow_succ']
      congr 2
      omega
    rw [hc, decide_eq_decide]
    omega
  · rw [if_neg (by omega), Nat.testBit_to_div_mod, Nat.testBit_to_div_mod]
    have h1 : 2 ^ i = 2 ^ k * 2 ^ (i - k) := by
      rw [← pow_add]
      congr 1
      omega
    rw [h1, ← Nat.div_div_eq_div_mul, Nat.mul_add_div (Nat.two_pow_pos k),
      Nat.div_eq_of_lt hb, Nat.add_zero]

theorem nat_lor_two_pow_mul {k : ℕ} (a : ℕ) {b : ℕ} (hb : b < 2 ^ k) :
    2 ^ k * a ||| b = 2 ^ k * a + b := by
  apply Nat.eq_of_testBit_eq
  intro i
  rw [Nat.testBit_or, nat_testBit_two_pow_mul_add a hb i]
  have ha : Nat.testBit (2 ^ k * a) i =
      if i < k then false else Nat.testBit a (i - k) := by
    have h := nat_testBit_two_pow_mul_add a (b := 0) (Nat.two_pow_pos k) i
    simpa using h
  rw [ha]
  by_cases h : i < k
  · simp [h]
  · have hbi : Nat.testBit b i = false :=
      Nat.testBit_lt_two_pow
        (lt_of_lt_of_le hb (Nat.pow_le_pow_right (by norm_num) (by omega)))
    simp [h, hbi]

theorem nat_ldiff_two_pow_mul {k : ℕ} (a : ℕ) {b : ℕ} (hb : b < 2 ^ k) :
    Nat.ldiff (2 ^ k * a + (2 ^ k - 1)) b = 2 ^ k * a + (2 ^ k - 1 - b) := by
  have hpos := Nat.two_pow_pos k
  apply Nat.eq_of_testBit_eq
  intro i
  rw [Nat.testBit_ldiff,
    nat_testBit_two_pow_mul_add a (show 2 ^ k - 1 < 2 ^ k by omega) i,
    nat_testBit_two_pow_mul_add a (show 2 ^ k - 1 - b < 2 ^ k by omega) i]
  by_cases h : i < k
  · rw [if_pos h, if_pos h]
    have h2 : 2 ^ k - 1 - b = 2 ^ k - (b + 1) := by omega
    rw [h2, Nat.testBit_two_pow_sub_succ hb]
    simp [h]
  · rw [if_neg h, if_neg h]
    have hbi : Nat.testBit b i = false :=
      Nat.testBit_lt_two_pow
        (lt_of_lt_of_le hb (Nat.pow_le_pow_right (by norm_num) (by omega)))
    simp [hbi]

theorem int_lor_two_pow_mul (t : ℤ) (k : ℕ) {v : ℤ} (h0 : 0 ≤ v)
    (hv : v < 2 ^ k) : Int.lor (t * 2 ^ k) v = t * 2 ^ k + v := by
  obtain ⟨b, rfl⟩ := Int.eq_ofNat_of_zero_le h0
  have hb : b < 2 ^ k := by exact_mod_cast hv
  cases t with
  | ofNat a =>
    have h1 : (Int.ofNat a) * 2 ^ k = Int.ofNat (2 ^ k * a) := by
      simp only [Int.ofNat_eq_coe]
      push_cast
      ring
    rw [h1]
    have h2 : Int.lor (Int.ofNat (2 ^ k * a)) (Int.ofNat b) =
        Int.ofNat (2 ^ k * a ||| b) := rfl
    rw [show ((b : ℤ)) = Int.ofNat b from rfl, h2, nat_lor_two_pow_mul a hb]
    simp only [Int.ofNat_eq_coe]
    push_cast
    ring
  | negSucc m =>
    have h2 : (1 : ℕ) ≤ 2 ^ k := Nat.one_le_two_pow
    have h1 : (Int.negSucc m) * 2 ^ k =
        Int.negSucc (2 ^ k * m + (2 ^ k - 1)) := by
      rw [Int.negSucc_eq, Int.negSucc_eq]
      push_cast [Nat.cast_sub h2]
      ring
    rw [h1]
    have h3 : Int.lor (Int.negSucc (2 ^ k * m + (2 ^ k - 1))) (Int.ofNat b) =
        Int.negSucc (Nat.ldiff (2 ^ k * m + (2 ^ k - 1)) b) := rfl
    rw [show ((b : ℤ)) = Int.ofNat b from rfl, h3, nat_ldiff_two_pow_mul m hb]
    have h4 : b ≤ 2 ^ k - 1 := by omega
    rw [Int.negSucc_eq, Int.negSucc_eq]
    push_cast [Int.ofNat_eq_coe, Nat.cast_sub h4, Nat.cast_sub h2]
    ring

/-- The id composed by `genNewID` is plain positional arithmetic on the three
fields: the bit supports of the three or-ed summands are disjoint. -/
theorem composeID_eq (t : ℤ) {n s : ℤ} (hn0 : 0 ≤ n) (hn : n < 2 ^ 12)
    (hs0 : 0 ≤ s) (hs : s < 2 ^ 10) :
    composeID t n s = t * 2 ^ 22 + n * 2 ^ 10 + s := by
  unfold composeID
  have e1 : NODE_ID_BITS + SEQUENCE_BITS = ((22 : ℕ) : ℤ) := by decide
  have e2 : SEQUENCE_BITS = ((10 : ℕ) : ℤ) := by decide
  rw [e1, e2, int_shiftLeft_coe, int_shiftLeft_coe]
  have h1 : Int.lor (t * 2 ^ 22) (n * 2 ^ 10) = t * 2 ^ 22 + n * 2 ^ 10 := by
    refine int_lor_two_pow_mul t 22 (by positivity) ?_
    calc n * 2 ^ 10 < 2 ^ 12 * 2 ^ 10 :=
          mul_lt_mul_of_pos_right hn (by norm_num)
      _ = 2 ^ 22 := by norm_num
  rw [h1]
  have h2 : t * 2 ^ 22 + n * 2 ^ 10 = (t * 2 ^ 12 + n) * 2 ^ 10 := by ring
  rw [h2, int_lor_two_pow_mul _ 10 hs0 hs]

/-- The decoder `getSequenceFromID` extracts bits 9–0. -/
theorem getSequenceFromID_eq (id : ℤ) : getSequenceFromID id = id % 2 ^ 10 := by
  show asUintN SEQUENCE_BITS
      ((id <<< (TOTAL_BITS - SEQUENCE_BITS)) >>> (TOTAL_BITS - SEQUENCE_BITS)) = _
  have e1 : TOTAL_BITS - SEQUENCE_BITS = ((54 : ℕ) : ℤ) := by decide
  rw [e1, int_shiftLeft_coe, int_shiftRight_coe,
    Int.mul_ediv_cancel id (by norm_num : ((2 : ℤ) ^ 54) ≠ 0)]
  rfl

/-- The decoder `getNodeIDFromID` extracts bits 21–10. -/
theorem getNodeIDFromID_eq (id : ℤ) :
    getNodeIDFromID id = (id / 2 ^ 10) % 2 ^ 12 := by
  show asUintN NODE_ID_BITS
      ((id <<< EPOCH_BITS) >>> (EPOCH_BITS + SEQUENCE_BITS)) = _
  have e1 : EPOCH_BITS = ((42 : ℕ) : ℤ) := by decide
  have e2 : EPOCH_BITS + SEQUENCE_BITS = ((52 : ℕ) : ℤ) := by decide
  rw [e2, e1, int_shiftLeft_coe, int_shiftRight_coe]
  have h1 : (id * 2 ^ 42) / 2 ^ 52 = id / 2 ^ 10 := by
    have h2 : (2 : ℤ) ^ 52 = 2 ^ 42 * 2 ^ 10 := by norm_num
    rw [h2, mul_comm id ((2 : ℤ) ^ 42),
      Int.mul_ediv_mul_of_pos id ((2 : ℤ) ^ 10) (by positivity)]
  rw [h1]
  rfl

/-- The decoder `getTimestampFromID` with a nonzero explicit offset extracts bits 63–22
(reduced mod `2 ^ 42`) and adds back the offset. -/
theorem getTimestampFromID_some (id e : ℤ) (he : e ≠ 0) :
    getTimestampFromID id (some e) = (id / 2 ^ 22) % 2 ^ 42 + e := by
  show asUintN EPOCH_BITS (id >>> (TOTAL_BITS - EPOCH_BITS)) +
      (if e = 0 then defaultTimeOffset else e) = _
  have e1 : TOTAL_BITS - EPOCH_BITS = ((22 : ℕ) : ℤ) := by decide
  rw [e1, int_shiftRight_coe, if_neg he]
  rfl

/-- Round trip: the decoders recover the sequence field. -/
theorem getSequenceFromID_composeID (t : ℤ) {n s : ℤ} (hn0 : 0 ≤ n)
    (hn : n < 2 ^ 12) (hs0 : 0 ≤ s) (hs : s < 2 ^ 10) :
    getSequenceFromID (composeID t n s) = s := by
  rw [getSequenceFromID_eq, composeID_eq t hn0 hn hs0 hs]
  omega

/-- Round trip: the decoders recover the node-id field. -/
theorem getNodeIDFromID_composeID (t : ℤ) {n s : ℤ} (hn0 : 0 ≤ n)
    (hn : n < 2 ^ 12) (hs0 : 0 ≤ s) (hs : s < 2 ^ 10) :
    getNodeIDFromID (composeID t n s) = n := by
  rw [getNodeIDFromID_eq, composeID_eq t hn0 hn hs0 hs]
  omega

/-- Round trip: for a timestamp in the 42-bit range and a nonzero offset, the
timestamp decoder recovers `t + e`. -/
theorem getTimestampFromID_composeID {t : ℤ} (ht0 : 0 ≤ t) (ht : t < 2 ^ 42)
    {n s : ℤ} (hn0 : 0 ≤ n) (hn : n < 2 ^ 12) (hs0 : 0 ≤ s) (hs : s < 2 ^ 10)
    {e : ℤ} (he : e ≠ 0) :
    getTimestampFromID (composeID t n s) (some e) = t + e := by
  rw [getTimestampFromID_some _ _ he, composeID_eq t hn0 hn hs0 hs]
  omega

/-! ### Behaviour of `genNewID` -/

/-- What a successful wait loop returns: the first clock reading (at an index
`≥ i`) whose computed timestamp differs from `lastTimestamp`. -/
theorem awaitNextMillis_some {timeOffset lastTimestamp : ℤ} {clock : ℕ → ℤ} :
    ∀ {fuel i : ℕ} {ts : ℤ},
      awaitNextMillis timeOffset lastTimestamp clock fuel i = some ts →
      ts ≠ lastTimestamp ∧ ∃ k, i ≤ k ∧ ts = clock k - timeOffset := by
  intro fuel
  induction fuel with
  | zero =>
    intro i ts h
    simp [awaitNextMillis] at h
  | succ m ih =>
    intro i ts h
    simp only [awaitNextMillis] at h
    by_cases hc : clock i - timeOffset = lastTimestamp
    · rw [if_pos hc] at h
      obtain ⟨hne, k, hk, hts⟩ := ih h
      exact ⟨hne, k, by omega, hts⟩
    · rw [if_neg hc] at h
      obtain rfl := (Option.some.inj h).symm
      exact ⟨hc, i, le_rfl, rfl⟩

/-- The wait loop terminates as soon as some in-fuel reading differs from
`lastTimestamp`. -/
theorem awaitNextMillis_isSome {timeOffset lastTimestamp : ℤ} {clock : ℕ → ℤ} :
    ∀ (fuel i : ℕ),
      (∃ k, i ≤ k ∧ k < i + fuel ∧ clock k - timeOffset ≠ lastTimestamp) →
      (awaitNextMillis timeOffset lastTimestamp clock fuel i).isSome = true := by
  intro fuel
  induction fuel with
  | zero =>
    rintro i ⟨k, hk1, hk2, _⟩
    omega
  | succ m ih =>
    rintro i ⟨k, hk1, hk2, hk3⟩
    simp only [awaitNextMillis]
    by_cases hc : clock i - timeOffset = lastTimestamp
    · rw [if_pos hc]
      have hki : k ≠ i := by
        intro he
        exact hk3 (he ▸ hc)
      exact ih (i + 1) ⟨k, by omega, by omega, hk3⟩
    · rw [if_neg hc]
      rfl

/-- Inversion principle for a successful `genNewID` call: the three branches
of the source, together with the stored state and composed id. -/
theorem genNewID_inv {s : Snowflake} {clock : ℕ → ℤ} {fuel : ℕ}
    {s' : Snowflake} {id : ℤ}
    (h : genNewID s clock fuel = some (s', id)) :
    ∃ ts seq,
      s' = { s with lastTimestamp := ts, lastSequence := seq } ∧
      id = composeID ts s.nodeID seq ∧
      ((clock 0 - s.timeOffset = s.lastTimestamp ∧
          maxSequence < s.lastSequence + 1 ∧
          awaitNextMillis s.timeOffset s.lastTimestamp clock fuel 1 = some ts ∧
          seq = 0) ∨
        (clock 0 - s.timeOffset = s.lastTimestamp ∧
          s.lastSequence + 1 ≤ maxSequence ∧
          ts = clock 0 - s.timeOffset ∧ seq = s.lastSequence + 1) ∨
        (clock 0 - s.timeOffset ≠ s.lastTimestamp ∧
          ts = clock 0 - s.timeOffset ∧ seq = 0)) := by
  simp only [genNewID] at h
  by_cases h1 : clock 0 - s.timeOffset = s.lastTimestamp
  · rw [if_pos h1] at h
    by_cases h2 : s.lastSequence + 1 > maxSequence
    · rw [if_pos h2] at h
      cases haw : awaitNextMillis s.timeOffset s.lastTimestamp clock fuel 1 with
      | none =>
        rw [haw] at h
        simp at h
      | some ts =>
        rw [haw] at h
        simp only [Option.map_some'] at h
        obtain ⟨rfl, rfl⟩ := Prod.mk.injEq .. |>.mp (Option.some.inj h)
        exact ⟨ts, 0, rfl, rfl, Or.inl ⟨h1, by omega, rfl, rfl⟩⟩
    · rw [if_neg h2] at h
      simp only [Option.map_some'] at h
      obtain ⟨rfl, rfl⟩ := Prod.mk.injEq .. |>.mp (Option.some.inj h)
      exact ⟨clock 0 - s.timeOffset, s.lastSequence + 1, rfl, rfl,
        Or.inr (Or.inl ⟨h1, by omega, rfl, rfl⟩)⟩
  · rw [if_neg h1] at h
    simp only [Option.map_some'] at h
    obtain ⟨rfl, rfl⟩ := Prod.mk.injEq .. |>.mp (Option.some.inj h)
    exact ⟨clock 0 - s.timeOffset, 0, rfl, rfl, Or.inr (Or.inr ⟨h1, rfl, rfl⟩)⟩

/-- A successful call keeps the configuration fields, returns exactly the id
composed from the stored state, and stores a timestamp that came from some
clock reading of this call. -/
theorem genNewID_state {s : Snowflake} {clock : ℕ → ℤ} {fuel : ℕ}
    {s' : Snowflake} {id : ℤ} (h : genNewID s clock fuel = some (s', id)) :
    s'.nodeID = s.nodeID ∧ s'.timeOffset = s.timeOffset ∧
    id = composeID s'.lastTimestamp s.nodeID s'.lastSequence ∧
    ∃ k, s'.lastTimestamp = clock k - s.timeOffset := by
  obtain ⟨ts, seq, rfl, hid, hcases⟩ := genNewID_inv h
  refine ⟨rfl, rfl, hid, ?_⟩
  rcases hcases with ⟨_, _, haw, _⟩ | ⟨_, _, hts, _⟩ | ⟨_, hts, _⟩
  · obtain ⟨_, k, _, hk⟩ := awaitNextMillis_some haw
    exact ⟨k, hk⟩
  · exact ⟨0, hts⟩
  · exact ⟨0, hts⟩

/-- A successful call stores a sequence in `[0, maxSequence]`, provided the
previous stored sequence was at least the `-1` sentinel. -/
theorem genNewID_seq_bounds {s : Snowflake} {clock : ℕ → ℤ} {fuel : ℕ}
    {s' : Snowflake} {id : ℤ} (h : genNewID s clock fuel = some (s', id))
    (hs0 : -1 ≤ s.lastSequence) :
    0 ≤ s'.lastSequence ∧ s'.lastSequence ≤ maxSequence := by
  have hms : maxSequence = 1023 := by decide
  obtain ⟨ts, seq, rfl, _, hcases⟩ := genNewID_inv h
  show 0 ≤ seq ∧ seq ≤ maxSequence
  rcases hcases with ⟨_, _, _, hseq⟩ | ⟨_, hle, _, hseq⟩ | ⟨_, _, hseq⟩ <;>
    subst hseq <;> omega

/-- A successful call advances the state lexicographically: either the stored
timestamp is unchanged and the sequence was incremented, or the stored
timestamp strictly increased (given in-call clock monotonicity and a wall
clock that has not run backwards since the previous call). -/
theorem genNewID_advance {s : Snowflake} {clock : ℕ → ℤ} {fuel : ℕ}
    {s' : Snowflake} {id : ℤ} (h : genNewID s clock fuel = some (s', id))
    (hmono : Monotone clock)
    (hlast : s.lastTimestamp ≤ clock 0 - s.timeOffset) :
    (s'.lastTimestamp = s.lastTimestamp ∧
      s'.lastSequence = s.lastSequence + 1) ∨
    s.lastTimestamp < s'.lastTimestamp := by
  obtain ⟨ts, seq, rfl, _, hcases⟩ := genNewID_inv h
  show (ts = s.lastTimestamp ∧ seq = s.lastSequence + 1) ∨
    s.lastTimestamp < ts
  rcases hcases with ⟨heq, _, haw, hseq⟩ | ⟨heq, _, hts, hseq⟩ |
    ⟨hne, hts, hseq⟩
  · right
    obtain ⟨hnel, k, _, hkval⟩ := awaitNextMillis_some haw
    have hck : clock 0 ≤ clock k := hmono (Nat.zero_le k)
    omega
  · left
    exact ⟨by omega, hseq⟩
  · right
    omega

/-- Under the state invariants, the returned id equals the mark of the new
state. -/
theorem genNewID_id_eq_mark {s : Snowflake} {clock : ℕ → ℤ} {fuel : ℕ}
    {s' : Snowflake} {id : ℤ} (h : genNewID s clock fuel = some (s', id))
    (hs0 : -1 ≤ s.lastSequence) (hn0 : 0 ≤ s.nodeID)
    (hn : s.nodeID ≤ maxNodeID) :
    id = stateMark s' := by
  have hmn : maxNodeID = 4095 := by decide
  obtain ⟨hb0, hb1⟩ := genNewID_seq_bounds h hs0
  obtain ⟨hnode, _, hid, _⟩ := genNewID_state h
  have hms : maxSequence = 1023 := by decide
  rw [hid, composeID_eq _ hn0 (by omega) hb0 (by omega)]
  unfold stateMark
  rw [hnode]

/-- Under the state invariants, the mark strictly increases across a
successful call. -/
theorem genNewID_mark_lt {s : Snowflake} {clock : ℕ → ℤ} {fuel : ℕ}
    {s' : Snowflake} {id : ℤ} (h : genNewID s clock fuel = some (s', id))
    (hmono : Monotone clock)
    (hlast : s.lastTimestamp ≤ clock 0 - s.timeOffset)
    (hs0 : -1 ≤ s.lastSequence) (hs1 : s.lastSequence ≤ maxSequence) :
    stateMark s < stateMark s' := by
  have hms : maxSequence = 1023 := by decide
  obtain ⟨hb0, hb1⟩ := genNewID_seq_bounds h hs0
  obtain ⟨hnode, _, _, _⟩ := genNewID_state h
  unfold stateMark
  rw [hnode]
  rcases genNewID_advance h hmono hlast with ⟨ht, hseq⟩ | hlt <;> omega

/-- Across a successful run of calls — each call's clock non-decreasing, every
reading of one call at or before the start reading of the next, and the wall
clock not behind the stored timestamp at the first call — the ids form a
strictly increasing chain above the starting state's mark. -/
theorem runCalls_chain :
    ∀ (l : List ((ℕ → ℤ) × ℕ)) (s s' : Snowflake) (ids : List ℤ),
      runCalls s l = some (s', ids) →
      0 ≤ s.nodeID → s.nodeID ≤ maxNodeID →
      -1 ≤ s.lastSequence → s.lastSequence ≤ maxSequence →
      (∀ c ∈ l, Monotone c.1) →
      l.Chain' (fun c d => ∀ i, c.1 i ≤ d.1 0) →
      (∀ c, l.head? = some c → s.lastTimestamp ≤ c.1 0 - s.timeOffset) →
      List.Chain' (· < ·) (stateMark s :: ids) := by
  intro l
  induction l with
  | nil =>
    intro s s' ids h _ _ _ _ _ _ _
    simp only [runCalls] at h
    obtain ⟨rfl, rfl⟩ := Prod.mk.injEq .. |>.mp (Option.some.inj h)
    simp
  | cons c rest ih =>
    intro s s' ids h hn0 hn1 hs0 hs1 hmono hchain hhead
    simp only [runCalls] at h
    cases hg : genNewID s c.1 c.2 with
    | none =>
      rw [hg] at h
      exact Option.noConfusion h
    | some p =>
      obtain ⟨s1, id1⟩ := p
      rw [hg] at h
      dsimp only at h
      cases hr : runCalls s1 rest with
      | none =>
        rw [hr] at h
        exact Option.noConfusion h
      | some q =>
        obtain ⟨s2, ids2⟩ := q
        rw [hr] at h
        obtain ⟨rfl, rfl⟩ := Prod.mk.injEq .. |>.mp (Option.some.inj h)
        have hst := genNewID_state hg
        have hb := genNewID_seq_bounds hg hs0
        have hmark := genNewID_id_eq_mark hg hs0 hn0 hn1
        have hlast : s.lastTimestamp ≤ c.1 0 - s.timeOffset := hhead c rfl
        have hm : Monotone c.1 := hmono c (List.mem_cons_self c rest)
        have hlt := genNewID_mark_lt hg hm hlast hs0 hs1
        have hhead1 : ∀ c', rest.head? = some c' →
            s1.lastTimestamp ≤ c'.1 0 - s1.timeOffset := by
          intro c' hc'
          obtain ⟨k, hk⟩ := hst.2.2.2
          rw [hk, hst.2.1]
          have hseam : c.1 k ≤ c'.1 0 := by
            cases rest with
            | nil => exact Option.noConfusion hc'
            | cons d rest' =>
              obtain rfl : d = c' := by simpa using hc'
              exact (List.chain'_cons.mp hchain).1 k
          omega
        have hrec := ih s1 s2 ids2 hr (hst.1 ▸ hn0) (hst.1 ▸ hn1)
          (le_trans (by norm_num) hb.1) hb.2
          (fun d hd => hmono d (List.mem_cons_of_mem c hd))
          hchain.tail hhead1
        rw [List.chain'_cons]
        exact ⟨hmark ▸ hlt, hmark ▸ hrec⟩

/-- Inversion for one step of `runCalls`. -/
theorem runCalls_cons_inv {s : Snowflake} {c : (ℕ → ℤ) × ℕ}
    {rest : List ((ℕ → ℤ) × ℕ)} {s' : Snowflake} {ids : List ℤ}
    (h : runCalls s (c :: rest) = some (s', ids)) :
    ∃ s1 id1 ids2, genNewID s c.1 c.2 = some (s1, id1) ∧
      runCalls s1 rest = some (s', ids2) ∧ ids = id1 :: ids2 := by
  simp only [runCalls] at h
  cases hg : genNewID s c.1 c.2 with
  | none =>
    rw [hg] at h
    exact Option.noConfusion h
  | some p =>
    obtain ⟨s1, id1⟩ := p
    rw [hg] at h
    dsimp only at h
    cases hr : runCalls s1 rest with
    | none =>
      rw [hr] at h
      exact Option.noConfusion h
    | some q =>
      obtain ⟨s2, ids2⟩ := q
      rw [hr] at h
      obtain ⟨rfl, rfl⟩ := Prod.mk.injEq .. |>.mp (Option.some.inj h)
      exact ⟨s1, id1, ids2, rfl, hr, rfl⟩

/-- Claim C1.  Monotonicity and uniqueness for a single instance.  For any run of
consecutive `genNewID` calls in which each call's clock readings are
non-decreasing and every reading of one call is at or before the first reading
of the next (a non-decreasing wall clock, each call completing before the next
starts), the returned ids form a strictly increasing sequence; in particular
all returned ids are distinct.  The state hypotheses hold for every generator
produced by the constructor (`lastSequence = -1`) and are preserved by calls. -/
theorem genNewID_monotone_unique (s : Snowflake) (l : List ((ℕ → ℤ) × ℕ))
    (s' : Snowflake) (ids : List ℤ)
    (hrun : runCalls s l = some (s', ids))
    (hn0 : 0 ≤ s.nodeID) (hn1 : s.nodeID ≤ maxNodeID)
    (hs0 : -1 ≤ s.lastSequence)
    (hmono : ∀ c ∈ l, Monotone c.1)
    (hseam : l.Chain' (fun c d => ∀ i, c.1 i ≤ d.1 0)) :
    List.Chain' (· < ·) ids ∧ ids.Nodup := by
  cases l with
  | nil =>
    simp only [runCalls] at hrun
    obtain ⟨rfl, rfl⟩ := Prod.mk.injEq .. |>.mp (Option.some.inj hrun)
    exact ⟨List.chain'_nil, List.nodup_nil⟩
  | cons c rest =>
    obtain ⟨s1, id1, ids2, hg, hr, rfl⟩ := runCalls_cons_inv hrun
    have hst := genNewID_state hg
    have hb := genNewID_seq_bounds hg hs0
    have hmark := genNewID_id_eq_mark hg hs0 hn0 hn1
    have hhead1 : ∀ c', rest.head? = some c' →
        s1.lastTimestamp ≤ c'.1 0 - s1.timeOffset := by
      intro c' hc'
      obtain ⟨k, hk⟩ := hst.2.2.2
      rw [hk, hst.2.1]
      have hseam' : c.1 k ≤ c'.1 0 := by
        cases rest with
        | nil => exact Option.noConfusion hc'
        | cons d rest' =>
          obtain rfl : d = c' := by simpa using hc'
          exact (List.chain'_cons.mp hseam).1 k
      omega
    have hchain := runCalls_chain rest s1 s' ids2 hr (hst.1 ▸ hn0)
      (hst.1 ▸ hn1) (le_trans (by norm_num) hb.1) hb.2
      (fun d hd => hmono d (List.mem_cons_of_mem c hd)) hseam.tail hhead1
    rw [← hmark] at hchain
    refine ⟨hchain, ?_⟩
    exact (List.chain'_iff_pairwise.mp hchain).imp ne_of_lt

/-- Concrete two-call run backing `genNewID_monotone_unique`: same
millisecond, so the second id is the first with the sequence bumped. -/
theorem genNewID_monotone_unique_witness :
    runCalls ⟨1, 1, 0, -1⟩ [(fun _ => 3, 1), (fun _ => 3, 1)] =
      some (⟨1, 1, 2, 1⟩, [8389632, 8389633]) ∧
    List.Chain' (· < ·) [(8389632 : ℤ), 8389633] ∧
    [(8389632 : ℤ), 8389633].Nodup := by
  have hrun : runCalls (⟨1, 1, 0, -1⟩ : Snowflake)
      [(fun _ => (3 : ℤ), 1), (fun _ => 3, 1)] =
      some (⟨1, 1, 2, 1⟩, [8389632, 8389633]) := by decide
  have h := genNewID_monotone_unique _ _ _ _ hrun (by decide) (by decide)
    (by decide)
    (by
      intro c hc
      simp only [List.mem_cons, List.not_mem_nil, or_false] at hc
      rcases hc with rfl | rfl <;> exact monotone_const)
    (by
      refine List.chain'_cons.mpr ⟨fun i => le_refl 3, ?_⟩
      exact List.chain'_singleton _)
  exact ⟨hrun, h.1, h.2⟩

/-- Claim C5.  Sequence overflow is handled internally, never as an error: when
the call observes the same timestamp as `lastTimestamp` and the incremented
sequence would exceed `maxSequence`, the call waits for the first differing
clock reading (index `k`, within fuel) and then succeeds, storing sequence 0
and a strictly larger timestamp (the clock readings being non-decreasing). -/
theorem genNewID_overflow (s : Snowflake) (clock : ℕ → ℤ) (fuel k : ℕ)
    (hsame : clock 0 - s.timeOffset = s.lastTimestamp)
    (hover : maxSequence < s.lastSequence + 1)
    (hmono : Monotone clock)
    (hn0 : 0 ≤ s.nodeID) (hn1 : s.nodeID ≤ maxNodeID)
    (hk1 : 1 ≤ k) (hk2 : k < 1 + fuel)
    (hkne : clock k - s.timeOffset ≠ s.lastTimestamp) :
    ∃ s' id, genNewID s clock fuel = some (s', id) ∧
      s.lastTimestamp < s'.lastTimestamp ∧
      s'.lastSequence = 0 ∧
      id = composeID s'.lastTimestamp s.nodeID 0 ∧
      getSequenceFromID id = 0 := by
  have hmn : maxNodeID = 4095 := by decide
  have hsome := awaitNextMillis_isSome fuel 1 ⟨k, hk1, hk2, hkne⟩
  obtain ⟨ts, hts⟩ := Option.isSome_iff_exists.mp hsome
  have hgen : genNewID s clock fuel =
      some ({ s with lastTimestamp := ts, lastSequence := 0 },
        composeID ts s.nodeID 0) := by
    simp only [genNewID, if_pos hsame, if_pos hover, hts, Option.map_some']
  obtain ⟨hne, j, hj1, hj2⟩ := awaitNextMillis_some hts
  have hcj : clock 0 ≤ clock j := hmono (Nat.zero_le j)
  refine ⟨_, _, hgen, ?_, rfl, rfl, ?_⟩
  · show s.lastTimestamp < ts
    omega
  · exact getSequenceFromID_composeID ts hn0 (by omega) le_rfl (by norm_num)

/-- Concrete overflow call backing `genNewID_overflow`: sequence exhausted at
1023, the clock ticks at the second reading. -/
theorem genNewID_overflow_witness :
    ∃ s' id,
      genNewID ⟨1, 0, 0, 1023⟩ (fun i => if i = 0 then (0 : ℤ) else 1) 1 =
        some (s', id) ∧
      (⟨1, 0, 0, 1023⟩ : Snowflake).lastTimestamp < s'.lastTimestamp ∧
      s'.lastSequence = 0 ∧
      id = composeID s'.lastTimestamp (⟨1, 0, 0, 1023⟩ : Snowflake).nodeID 0 ∧
      getSequenceFromID id = 0 :=
  genNewID_overflow ⟨1, 0, 0, 1023⟩ (fun i => if i = 0 then (0 : ℤ) else 1)
    1 1 (by decide) (by decide)
    (by
      intro a b hab
      dsimp only
      split_ifs <;> omega)
    (by decide) (by decide) (by decide) (by decide) (by decide)

/-- Claim C2, counterexample.  A call whose computed timestamp is negative (wall
clock earlier than the epoch offset) does not fail: it returns an identifier
(here with timestamp field `3 - 10 = -7`). -/
theorem genNewID_negative_timestamp_counterexample :
    (fun _ => (3 : ℤ)) 0 - (⟨1, 10, 0, -1⟩ : Snowflake).timeOffset < 0 ∧
    genNewID ⟨1, 10, 0, -1⟩ (fun _ => 3) 1 =
      some (⟨1, 10, -7, 0⟩, composeID (-7) 1 0) ∧
    (genNewID ⟨1, 10, 0, -1⟩ (fun _ => 3) 1).isSome = true := by
  have h : genNewID ⟨1, 10, 0, -1⟩ (fun _ => (3 : ℤ)) 1 =
      some (⟨1, 10, -7, 0⟩, composeID (-7) 1 0) := by
    simp only [genNewID, Option.map_some']
    norm_num
  exact ⟨by decide, h, by rw [h]; rfl⟩

/-- Claim C2, amended.  Here `genNewID` performs no clock-before-epoch check.  When
the computed timestamp is negative (and differs from `lastTimestamp`, as on a
fresh generator), the call succeeds and returns the id composed from the
negative timestamp — a negative value — instead of failing. -/
theorem genNewID_no_epoch_check (s : Snowflake) (clock : ℕ → ℤ) (fuel : ℕ)
    (hneg : clock 0 - s.timeOffset < 0)
    (hne : clock 0 - s.timeOffset ≠ s.lastTimestamp)
    (hn0 : 0 ≤ s.nodeID) (hn1 : s.nodeID ≤ maxNodeID) :
    genNewID s clock fuel =
      some
        ({ s with
            lastTimestamp := clock 0 - s.timeOffset
            lastSequence := 0 },
          composeID (clock 0 - s.timeOffset) s.nodeID 0) ∧
    composeID (clock 0 - s.timeOffset) s.nodeID 0 < 0 := by
  have hmn : maxNodeID = 4095 := by decide
  constructor
  · simp only [genNewID, if_neg hne, Option.map_some']
  · rw [composeID_eq _ hn0 (by omega) le_rfl (by norm_num)]
    omega

/-- Concrete negative-timestamp call backing `genNewID_no_epoch_check`. -/
theorem genNewID_no_epoch_check_witness :
    genNewID ⟨1, 10, 0, -1⟩ (fun _ => (3 : ℤ)) 1 =
      some (⟨1, 10, -7, 0⟩, composeID (-7) 1 0) ∧
    composeID (-7) 1 0 < 0 :=
  genNewID_no_epoch_check ⟨1, 10, 0, -1⟩ (fun _ => 3) 1 (by decide)
    (by decide) (by decide) (by decide)

/-- Claim C3, counterexample.  With timestamp `2 ^ 41` (inside the claimed
`[0, 2 ^ 42)` range), node id 0 and sequence 0, the composed id has bit 63
set: the 42-bit timestamp field occupies bits 63–22, so there is no always-
zero sign bit. -/
theorem composeID_sign_bit_counterexample :
    (0 : ℤ) ≤ 2199023255552 ∧ (2199023255552 : ℤ) < 2 ^ 42 ∧
    Int.testBit (composeID 2199023255552 0 0) 63 = true := by
  refine ⟨by norm_num, by norm_num, by decide⟩

/-- Claim C3, amended.  Field layout of composed ids: sequence in bits 9–0,
node id in bits 21–10, timestamp in bits 63–22 (no sign bit); bit 63 carries
bit 41 of the timestamp, so it is 0 exactly when `t < 2 ^ 41`. -/
theorem composeID_layout (t n s : ℤ)
    (ht0 : 0 ≤ t) (ht : t < 2 ^ 42) (hn0 : 0 ≤ n) (hn : n ≤ 4095)
    (hs0 : 0 ≤ s) (hs : s ≤ 1023) :
    getSequenceFromID (composeID t n s) = s ∧
    getNodeIDFromID (composeID t n s) = n ∧
    asUintN EPOCH_BITS (composeID t n s >>> (TOTAL_BITS - EPOCH_BITS)) = t ∧
    Int.testBit (composeID t n s) 63 = decide (2 ^ 41 ≤ t) := by
  have hc := composeID_eq t (n := n) (s := s) hn0 (by omega) hs0 (by omega)
  refine ⟨getSequenceFromID_composeID t hn0 (by omega) hs0 (by omega),
    getNodeIDFromID_composeID t hn0 (by omega) hs0 (by omega), ?_, ?_⟩
  · have e1 : TOTAL_BITS - EPOCH_BITS = ((22 : ℕ) : ℤ) := by decide
    rw [e1, int_shiftRight_coe, hc]
    show (t * 2 ^ 22 + n * 2 ^ 10 + s) / 2 ^ 22 % 2 ^ 42 = t
    omega
  · rw [hc]
    have h0 : 0 ≤ t * 2 ^ 22 + n * 2 ^ 10 + s := by omega
    obtain ⟨M, hM⟩ := Int.eq_ofNat_of_zero_le h0
    rw [hM]
    show Nat.testBit M 63 = decide (2 ^ 41 ≤ t)
    by_cases hcase : (2 : ℤ) ^ 41 ≤ t
    · have hM1 : 2 ^ 63 ≤ M := by omega
      have hM2 : M < 2 ^ 64 := by omega
      obtain ⟨r, hr, hrlt⟩ : ∃ r, M = 2 ^ 63 + r ∧ r < 2 ^ 63 :=
        ⟨M - 2 ^ 63, by omega, by omega⟩
      rw [hr, Nat.testBit_two_pow_add_eq, Nat.testBit_lt_two_pow hrlt]
      rw [Bool.not_false]
      exact (decide_eq_true hcase).symm
    · have hM3 : M < 2 ^ 63 := by omega
      rw [Nat.testBit_lt_two_pow hM3]
      exact (decide_eq_false hcase).symm

/-- Concrete layout check backing `composeID_layout`. -/
theorem composeID_layout_witness :
    getSequenceFromID (composeID 5 4095 1023) = 1023 ∧
    getNodeIDFromID (composeID 5 4095 1023) = 4095 ∧
    asUintN EPOCH_BITS (composeID 5 4095 1023 >>> (TOTAL_BITS - EPOCH_BITS)) =
      5 ∧
    Int.testBit (composeID 5 4095 1023) 63 = decide ((2 : ℤ) ^ 41 ≤ 5) :=
  composeID_layout 5 4095 1023 (by norm_num) (by norm_num) (by norm_num)
    (by norm_num) (by norm_num) (by norm_num)

/-- Claim C4, counterexample.  A zero epoch offset is not honoured by the
decoder: `getTimestampFromID(id, 0)` silently substitutes
`defaultTimeOffset`, so the round trip fails at `e = 0`. -/
theorem getTimestampFromID_zero_offset_counterexample :
    (0 : ℤ) ≤ 1 ∧ (1 : ℤ) < 2 ^ 42 ∧
    getTimestampFromID (composeID 1 0 0) (some 0) ≠ 1 + 0 := by
  refine ⟨by norm_num, by norm_num, by decide⟩

/-- Claim C4, amended.  Compose/decode round trip for every timestamp in
`[0, 2 ^ 42)`, node id in `[0, 4095]`, sequence in `[0, 1023]` and every
*nonzero* epoch offset (a zero offset is replaced by `defaultTimeOffset` by
the JS truthiness test). -/
theorem decode_roundtrip (t n s e : ℤ) (ht0 : 0 ≤ t) (ht : t < 2 ^ 42)
    (hn0 : 0 ≤ n) (hn : n ≤ 4095) (hs0 : 0 ≤ s) (hs : s ≤ 1023)
    (he : e ≠ 0) :
    getTimestampFromID (composeID t n s) (some e) = t + e ∧
    getNodeIDFromID (composeID t n s) = n ∧
    getSequenceFromID (composeID t n s) = s :=
  ⟨getTimestampFromID_composeID ht0 ht hn0 (by omega) hs0 (by omega) he,
    getNodeIDFromID_composeID t hn0 (by omega) hs0 (by omega),
    getSequenceFromID_composeID t hn0 (by omega) hs0 (by omega)⟩

/-- Concrete boundary round trip backing `decode_roundtrip`. -/
theorem decode_roundtrip_witness :
    getTimestampFromID (composeID 0 4095 1023) (some 7) = 0 + 7 ∧
    getNodeIDFromID (composeID 0 4095 1023) = 4095 ∧
    getSequenceFromID (composeID 0 4095 1023) = 1023 :=
  decode_roundtrip 0 4095 1023 7 (by norm_num) (by norm_num) (by norm_num)
    (by norm_num) (by norm_num) (by norm_num) (by norm_num)

/-- Bitwise set difference cannot leave the range of its first argument. -/
theorem nat_ldiff_lt_two_pow {k a : ℕ} (ha : a < 2 ^ k) (b : ℕ) :
    Nat.ldiff a b < 2 ^ k := by
  by_contra h
  push_neg at h
  obtain ⟨i, hik, hbit⟩ := Nat.ge_two_pow_implies_high_bit_true h
  rw [Nat.testBit_ldiff] at hbit
  have hai : Nat.testBit a i = false :=
    Nat.testBit_lt_two_pow
      (lt_of_lt_of_le ha (Nat.pow_le_pow_right (by norm_num) hik))
  rw [hai] at hbit
  simp at hbit

/-- Masking with `maxNodeID` always lands in `[0, maxNodeID]`, also for
negative inputs (two's-complement `&`). -/
theorem int_land_maxNodeID_bounds (v : ℤ) :
    0 ≤ Int.land v maxNodeID ∧ Int.land v maxNodeID ≤ maxNodeID := by
  have hm : maxNodeID = ((4095 : ℕ) : ℤ) := by decide
  rw [hm]
  cases v with
  | ofNat m =>
    have h1 : Int.land (Int.ofNat m) ((4095 : ℕ) : ℤ) =
        Int.ofNat (m &&& 4095) := rfl
    rw [h1]
    exact ⟨Int.ofNat_nonneg _, Int.ofNat_le.mpr Nat.and_le_right⟩
  | negSucc m =>
    have h1 : Int.land (Int.negSucc m) ((4095 : ℕ) : ℤ) =
        Int.ofNat (Nat.ldiff 4095 m) := rfl
    rw [h1]
    refine ⟨Int.ofNat_nonneg _, ?_⟩
    have h2 : Nat.ldiff 4095 m < 2 ^ 12 := nat_ldiff_lt_two_pow (by norm_num) m
    exact Int.ofNat_le.mpr (by omega)

/-- Claim C6, counterexample.  A supplied node id of `0` is *not* stored as
`0 & 0xFFF = 0`: the JS truthiness test replaces it by the machine hash
(here 7) before masking. -/
theorem constructor_zero_nodeID_counterexample :
    (snowflakeConstructor (some 0) none 7).nodeID = 7 ∧
    Int.land 0 maxNodeID = 0 ∧
    (snowflakeConstructor (some 0) none 7).nodeID ≠ Int.land 0 maxNodeID := by
  refine ⟨by decide, by decide, by decide⟩

/-- Claim C6, amended.  For every *nonzero* supplied node id — including values
outside `[0, 4095]` and negative values — construction succeeds (the
constructor is total, there is no rejection path) and stores exactly the
supplied value masked to its low 12 bits, hence a value in `[0, 4095]`. -/
theorem constructor_truncates_nodeID (v : ℤ) (t : Option ℤ) (h : ℤ)
    (hv : v ≠ 0) :
    (snowflakeConstructor (some v) t h).nodeID = Int.land v maxNodeID ∧
    0 ≤ (snowflakeConstructor (some v) t h).nodeID ∧
    (snowflakeConstructor (some v) t h).nodeID ≤ maxNodeID := by
  have he : (snowflakeConstructor (some v) t h).nodeID =
      Int.land v maxNodeID := by
    simp only [snowflakeConstructor, if_neg hv]
  refine ⟨he, ?_, ?_⟩ <;> rw [he]
  · exact (int_land_maxNodeID_bounds v).1
  · exact (int_land_maxNodeID_bounds v).2

/-- Concrete out-of-range construction backing `constructor_truncates_nodeID`
(`5000 & 0xFFF = 904`). -/
theorem constructor_truncates_nodeID_witness :
    (snowflakeConstructor (some 5000) none 0).nodeID =
      Int.land 5000 maxNodeID ∧
    0 ≤ (snowflakeConstructor (some 5000) none 0).nodeID ∧
    (snowflakeConstructor (some 5000) none 0).nodeID ≤ maxNodeID :=
  constructor_truncates_nodeID 5000 none 0 (by norm_num)

/-- Claim C7.  Invariants: every constructed generator has its node id in
`[0, maxNodeID]`; a successful `genNewID` call keeps the node id and stores a
sequence in `[0, maxSequence]` (given the `-1` sentinel lower bound), and the
returned id decodes to that node id and stored sequence, hence its node-id
field is at most 4095 and its sequence field at most 1023. -/
theorem nodeID_sequence_invariants :
    (∀ a b h, 0 ≤ (snowflakeConstructor a b h).nodeID ∧
        (snowflakeConstructor a b h).nodeID ≤ maxNodeID) ∧
    (∀ (s : Snowflake) (clock : ℕ → ℤ) (fuel : ℕ) (s' : Snowflake) (id : ℤ),
      genNewID s clock fuel = some (s', id) →
      0 ≤ s.nodeID → s.nodeID ≤ maxNodeID → -1 ≤ s.lastSequence →
      (s'.nodeID = s.nodeID ∧ 0 ≤ s'.nodeID ∧ s'.nodeID ≤ maxNodeID ∧
        0 ≤ s'.lastSequence ∧ s'.lastSequence ≤ maxSequence ∧
        getNodeIDFromID id = s.nodeID ∧ getNodeIDFromID id ≤ maxNodeID ∧
        0 ≤ getSequenceFromID id ∧ getSequenceFromID id ≤ maxSequence)) := by
  constructor
  · intro a b h
    simp only [snowflakeConstructor]
    exact int_land_maxNodeID_bounds _
  · intro s clock fuel s' id hg hn0 hn1 hs0
    obtain ⟨hnode, _, hid, _⟩ := genNewID_state hg
    obtain ⟨hb0, hb1⟩ := genNewID_seq_bounds hg hs0
    have hmn : maxNodeID = 4095 := by decide
    have hms : maxSequence = 1023 := by decide
    have hdn : getNodeIDFromID id = s.nodeID := by
      rw [hid]
      exact getNodeIDFromID_composeID _ hn0 (by omega) hb0 (by omega)
    have hds : getSequenceFromID id = s'.lastSequence := by
      rw [hid]
      exact getSequenceFromID_composeID _ hn0 (by omega) hb0 (by omega)
    refine ⟨hnode, by omega, by omega, hb0, hb1, hdn, by omega, by omega,
      by omega⟩

/-- Concrete instances backing `nodeID_sequence_invariants`. -/
theorem nodeID_sequence_invariants_witness :
    (0 ≤ (snowflakeConstructor (some 5000) none 0).nodeID ∧
      (snowflakeConstructor (some 5000) none 0).nodeID ≤ maxNodeID) ∧
    ((⟨1, 1, 2, 0⟩ : Snowflake).nodeID = (⟨1, 1, 0, -1⟩ : Snowflake).nodeID ∧
      0 ≤ (⟨1, 1, 2, 0⟩ : Snowflake).nodeID ∧
      (⟨1, 1, 2, 0⟩ : Snowflake).nodeID ≤ maxNodeID ∧
      0 ≤ (⟨1, 1, 2, 0⟩ : Snowflake).lastSequence ∧
      (⟨1, 1, 2, 0⟩ : Snowflake).lastSequence ≤ maxSequence ∧
      getNodeIDFromID 8389632 = (⟨1, 1, 0, -1⟩ : Snowflake).nodeID ∧
      getNodeIDFromID 8389632 ≤ maxNodeID ∧
      0 ≤ getSequenceFromID 8389632 ∧
      getSequenceFromID 8389632 ≤ maxSequence) :=
  ⟨nodeID_sequence_invariants.1 (some 5000) none 0,
    nodeID_sequence_invariants.2 ⟨1, 1, 0, -1⟩ (fun _ => 3) 1 ⟨1, 1, 2, 0⟩
      8389632 (by decide) (by decide) (by decide) (by decide)⟩

/-- Claim C8.  The first `genNewID` call on a freshly constructed generator
always succeeds and returns sequence 0, whether or not the first computed
timestamp equals the initial `lastTimestamp` (the `-1` sentinel makes the
matching branch increment to 0). -/
theorem first_call_sequence_zero (a b : Option ℤ) (h : ℤ) (clock : ℕ → ℤ)
    (fuel : ℕ) :
    ∃ s' id, genNewID (snowflakeConstructor a b h) clock fuel =
        some (s', id) ∧
      s'.lastSequence = 0 ∧ getSequenceFromID id = 0 := by
  set s := snowflakeConstructor a b h with hs
  have hlseq : s.lastSequence = -1 := rfl
  have hnb : 0 ≤ s.nodeID ∧ s.nodeID ≤ maxNodeID := by
    rw [hs]
    simp only [snowflakeConstructor]
    exact int_land_maxNodeID_bounds _
  have hmn : maxNodeID = 4095 := by decide
  by_cases hc : clock 0 - s.timeOffset = s.lastTimestamp
  · have hnot : ¬(s.lastSequence + 1 > maxSequence) := by
      rw [hlseq]
      decide
    have hgen : genNewID s clock fuel =
        some
          ({ s with
              lastTimestamp := clock 0 - s.timeOffset
              lastSequence := s.lastSequence + 1 },
            composeID (clock 0 - s.timeOffset) s.nodeID
              (s.lastSequence + 1)) := by
      simp only [genNewID, if_pos hc, if_neg hnot, Option.map_some']
    refine ⟨_, _, hgen, ?_, ?_⟩
    · show s.lastSequence + 1 = 0
      rw [hlseq]
      norm_num
    · have hd : getSequenceFromID
          (composeID (clock 0 - s.timeOffset) s.nodeID (s.lastSequence + 1)) =
          s.lastSequence + 1 :=
        getSequenceFromID_composeID _ hnb.1 (by omega)
          (by rw [hlseq]; norm_num) (by rw [hlseq]; norm_num)
      rw [hd, hlseq]
      norm_num
  · have hgen : genNewID s clock fuel =
        some
          ({ s with
              lastTimestamp := clock 0 - s.timeOffset
              lastSequence := 0 },
            composeID (clock 0 - s.timeOffset) s.nodeID 0) := by
      simp only [genNewID, if_neg hc, Option.map_some']
    refine ⟨_, _, hgen, rfl, ?_⟩
    exact getSequenceFromID_composeID _ hnb.1 (by omega) le_rfl (by norm_num)

/-- Claim C9.  The accessor `Snowflake.get` with an explicit zero option does not use the
zero: a zero node id is replaced by the (masked) machine hash and a zero
time offset by `defaultTimeOffset`, because the constructor tests the
arguments with JS truthiness rather than presence. -/
theorem get_zero_options_use_defaults (mh t v : ℤ) :
    (snowflakeGet none (some 0) (some t) mh).1.nodeID =
      Int.land mh maxNodeID ∧
    (snowflakeGet none (some v) (some 0) mh).1.timeOffset =
      defaultTimeOffset ∧
    snowflakeGet none (some 0) (some 0) mh = snowflakeGet none none none mh :=
  ⟨rfl, rfl, rfl⟩

/-- Claim C10.  The accessor `Snowflake.get` is a memoising singleton: once an instance
exists, every later call returns that same instance — same `nodeID`, same
`timeOffset` — and the options passed to the later call are ignored. -/
theorem get_returns_first_instance (i : Snowflake) (n t n2 t2 : Option ℤ)
    (mh mh2 : ℤ) :
    snowflakeGet (some i) n t mh = (i, some i) ∧
    (snowflakeGet (snowflakeGet none n t mh).2 n2 t2 mh2).1 =
      (snowflakeGet none n t mh).1 ∧
    (snowflakeGet (snowflakeGet none n t mh).2 n2 t2 mh2).1.nodeID =
      (snowflakeGet none n t mh).1.nodeID ∧
    (snowflakeGet (snowflakeGet none n t mh).2 n2 t2 mh2).1.timeOffset =
      (snowflakeGet none n t mh).1.timeOffset ∧
    (snowflakeGet (snowflakeGet none n t mh).2 n2 t2 mh2).2 =
      (snowflakeGet none n t mh).2 :=
  ⟨rfl, rfl, rfl, rfl, rfl⟩
